import Mathlib

/-
Verification of the daily-bucketing aggregation core of read_weewxdata.py.

The embedding models the script's main data path over exact rationals:
  - ingestion of the row list into the columnar raw store (WxStationData),
  - the continuous day-number scale (matplotlib epoch2num),
  - the single-pass daily aggregation loop (maxvars / minvars / rain4day /
    dailydate with the boundary test ADdays[r] < currday + 1.0 + gmt_offset),
  - the derived whole-series columns (ADdays, CumulativeRain),
  - the clamped raw-store selection error branch that reports
    (MinEpochtime[0], MaxEpochtime[-2]).
-/

namespace ReadWeewx

/-- Number of tracked fields: len(variablelist) in the source is 52
(indices 0 = Epochtime .. 51 = Empty29). -/
def numvars : ℕ := 52

/-- Index of "Epochtime" in variablelist (first field). -/
def epochtimeIdx : ℕ := 0

/-- Index of "Rainfall" in variablelist. -/
def rainfallIdx : ℕ := 15

/-- matplotlib.dates.epoch2num: days since 0001-01-01 00:00 UTC plus 1,
so epoch seconds e map to e / 86400 + 719163. -/
def epoch2num (e : ℚ) : ℚ := e / 86400 + 719163

/-- The rows fetched from the archive table (datav1): each row is a tuple
of 52 numeric fields, modelled as a function from field index to value. -/
structure WxInput where
  rows : List (ℕ → ℚ)

/-- Number of observations, len(datav1). -/
def WxInput.nobs (input : WxInput) : ℕ := input.rows.length

/-- Value of field v at observation r (WxStationData[variablelist[v]][r]).
Out-of-range access yields 0; the source only reads r < nobs. -/
def WxInput.col (input : WxInput) (v r : ℕ) : ℚ :=
  (input.rows.getD r (fun _ => 0)) v

/-- Columnar raw store entry: WxStationData[variablelist[v]] as a list,
built by appending row r's field v for each row in order. -/
def WxInput.colList (input : WxInput) (v : ℕ) : List ℚ :=
  input.rows.map (fun t => t v)

/-- Continuous day-number of observation r:
ADdays = mdates.epoch2num(WxStationData["Epochtime"]). -/
def WxInput.adday (input : WxInput) (r : ℕ) : ℚ :=
  epoch2num (input.col epochtimeIdx r)

/-- Timestamp-ascending precondition on the input (assumed, never checked
by the source): adjacent epochtimes are non-decreasing. -/
def Ascending (input : WxInput) : Prop :=
  ∀ i, i < input.nobs → i + 1 < input.nobs →
    input.col epochtimeIdx i ≤ input.col epochtimeIdx (i + 1)

/-- State of the daily aggregation loop: the current day floor (currday),
the day counter d, the open rainfall accumulator (rain4day), the closed
per-day rainfall and day-floor lists (rain4day_arr, dailydate), and the
two pre-allocated max/min tables indexed by (field, day column). -/
structure AggState where
  currday : ℤ
  d : ℕ
  rain4day : ℚ
  rain4day_arr : List ℚ
  dailydate : List ℤ
  maxvars : ℕ → ℕ → ℚ
  minvars : ℕ → ℕ → ℚ

/-- Loop initialisation: currday = floor(ADdays[0]), d = 0, rain4day = 0,
empty lists, and maxvars/minvars are np.zeros with column 0 seeded from
observation 0 for every tracked field. -/
def initState (input : WxInput) : AggState :=
  { currday := ⌊input.adday 0⌋
    d := 0
    rain4day := 0
    rain4day_arr := []
    dailydate := []
    maxvars := fun v c => if v < numvars ∧ c = 0 then input.col v 0 else 0
    minvars := fun v c => if v < numvars ∧ c = 0 then input.col v 0 else 0 }

/-- One iteration of the aggregation loop at row r.  The in-bucket branch
(ADdays[r] < currday + 1.0 + gmt_offset) accumulates rainfall and updates
the running max/min of every tracked field at column d by strict
comparison; the boundary branch appends the closed bucket, resets currday
and rain4day from row r, increments d, and seeds column d+1 of every
tracked field from row r. -/
def aggStep (input : WxInput) (off : ℚ) (s : AggState) (r : ℕ) : AggState :=
  if input.adday r < (s.currday : ℚ) + 1 + off then
    { s with
      rain4day := s.rain4day + input.col rainfallIdx r
      maxvars := fun v c =>
        if v < numvars ∧ c = s.d ∧ s.maxvars v c < input.col v r then
          input.col v r
        else s.maxvars v c
      minvars := fun v c =>
        if v < numvars ∧ c = s.d ∧ input.col v r < s.minvars v c then
          input.col v r
        else s.minvars v c }
  else
    { currday := ⌊input.adday r⌋
      d := s.d + 1
      rain4day := input.col rainfallIdx r
      rain4day_arr := s.rain4day_arr ++ [s.rain4day]
      dailydate := s.dailydate ++ [s.currday]
      maxvars := fun v c =>
        if v < numvars ∧ c = s.d + 1 then input.col v r else s.maxvars v c
      minvars := fun v c =>
        if v < numvars ∧ c = s.d + 1 then input.col v r else s.minvars v c }

/-- State of the aggregation loop after processing rows 0 .. k-1. -/
def aggRun (input : WxInput) (off : ℚ) (k : ℕ) : AggState :=
  (List.range k).foldl (aggStep input off) (initState input)

/-- State after the whole loop (all nobs rows). -/
def finalState (input : WxInput) (off : ℚ) : AggState :=
  aggRun input off input.nobs

/-- Rain4Day series: rain4day_arr after the trailing append of the last
open bucket. -/
def rain4dayArr (input : WxInput) (off : ℚ) : List ℚ :=
  (finalState input off).rain4day_arr ++ [(finalState input off).rain4day]

/-- ADDailyDate series: dailydate after the trailing append of the last
open bucket's currday. -/
def dailydateArr (input : WxInput) (off : ℚ) : List ℤ :=
  (finalState input off).dailydate ++ [(finalState input off).currday]

/-- Number of day buckets emitted (length of dailydate / rain4day_arr
after the final append; the day counter reaches d, so d+1 buckets). -/
def numBuckets (input : WxInput) (off : ℚ) : ℕ :=
  (finalState input off).d + 1

/-- Bucket (day-column index) to which the scan assigns row r: the value
of the day counter just after row r is processed. -/
def bucketOf (input : WxInput) (off : ℚ) (r : ℕ) : ℕ :=
  (aggRun input off (r + 1)).d

/-- Allocated number of day columns of maxvars/minvars:
int(math.ceil(ADdays[-1] - ADdays[0])) + 1. -/
def allocWidth (input : WxInput) : ℕ :=
  (⌈input.adday (input.nobs - 1) - input.adday 0⌉).toNat + 1

/-- Daily store sequence WxStationDailyData["Max"+variablelist[v]]:
the full row maxvars[v,:] of the pre-allocated table. -/
def maxSeq (input : WxInput) (off : ℚ) (v : ℕ) : List ℚ :=
  (List.range (allocWidth input)).map ((finalState input off).maxvars v)

/-- Daily store sequence WxStationDailyData["Min"+variablelist[v]]:
the full row minvars[v,:] of the pre-allocated table. -/
def minSeq (input : WxInput) (off : ℚ) (v : ℕ) : List ℚ :=
  (List.range (allocWidth input)).map ((finalState input off).minvars v)

/-- Inclusive running prefix sums starting from accumulator acc. -/
def cumsumAux (acc : ℚ) : List ℚ → List ℚ
  | [] => []
  | x :: xs => (acc + x) :: cumsumAux (acc + x) xs

/-- numpy cumsum: inclusive running prefix sums of a list. -/
def cumsum (l : List ℚ) : List ℚ := cumsumAux 0 l

/-- Derived column WxStationData["CumulativeRain"]: cumulative sum of the
Rainfall column. -/
def cumulativeRain (input : WxInput) : List ℚ :=
  cumsum (input.colList rainfallIdx)

/-- Derived column WxStationData["ADdays"] as a list. -/
def addaysList (input : WxInput) : List ℚ :=
  (input.colList epochtimeIdx).map epoch2num

/-- The raw store after the two derived columns are appended: keys 0..51
are the original field columns, key 52 is ADdays, key 53 is
CumulativeRain. -/
def rawStoreFinal (input : WxInput) (v : ℕ) : List ℚ :=
  if v = 52 then addaysList input
  else if v = 53 then cumulativeRain input
  else input.colList v

/-- Modelled from the spec glossary (the conceptual definition, not the
boundary test used by the code): the adjusted day-floor of observation r
is floor(continuous day-number - dayOffsetFraction). -/
def adjustedDayFloor (input : WxInput) (off : ℚ) (r : ℕ) : ℤ :=
  ⌊input.adday r - off⌋

/-- Modelled from the spec: the set of distinct adjusted-day-floor values
encountered in the input stream. -/
def adjustedDayFloors (input : WxInput) (off : ℚ) : Finset ℤ :=
  (Finset.range input.nobs).image (adjustedDayFloor input off)

/-- Indices of raw observations whose Epochtime lies in [e1, e2]:
np.where((Epochtime >= epoch_time1) & (Epochtime <= epoch_time2)). -/
def aidx (input : WxInput) (e1 e2 : ℚ) : List ℕ :=
  (List.range input.nobs).filter
    (fun r => decide (e1 ≤ input.col epochtimeIdx r ∧ input.col epochtimeIdx r ≤ e2))

/-- The bounds the empty-range error branch reports:
(WxStationDailyData["MinEpochtime"][0], WxStationDailyData["MaxEpochtime"][-2]). -/
def noRangeBounds (input : WxInput) (off : ℚ) : ℚ × ℚ :=
  ((minSeq input off epochtimeIdx).getD 0 0,
   (maxSeq input off epochtimeIdx).getD (allocWidth input - 2) 0)

/-- Clamped raw-store selection (view_request_time = 0 branch): returns
the in-range indices, or the error bounds when no observation is in
range. -/
def selectRawClamped (input : WxInput) (off : ℚ) (e1 e2 : ℚ) :
    Except (ℚ × ℚ) (List ℕ) :=
  if aidx input e1 e2 = [] then Except.error (noRangeBounds input off)
  else Except.ok (aidx input e1 e2)

/-- Helper to build a concrete row: epochtime e, rainfall rain, and a
common value for every other field. -/
def exRow (e rain other : ℚ) : ℕ → ℚ :=
  fun v => if v = epochtimeIdx then e else if v = rainfallIdx then rain else other

/-- Concrete input of the spec scenario: 3 observations at continuous
day-numbers 100.2, 100.9, 101.3 (epochtimes (day - 719163) * 86400) with
rainfall 0.1, 0.2, 0.05; the remaining fields carry 7, 4, 9. -/
def exInput : WxInput :=
  ⟨[exRow (-62127025920) (1/10) 7, exRow (-62126965440) (2/10) 4,
    exRow (-62126930880) (1/20) 9]⟩

/-- Concrete input for the selection error branch: 2 observations at
epochtimes 864000 and 1097280 (day-numbers 719173.0 and 719175.7, i.e.
2.7 days apart), all other fields zero. -/
def exC8Input : WxInput := ⟨[exRow 864000 0 0, exRow 1097280 0 0]⟩

/-- Concrete input for the adjusted-day-floor counterexamples: 2
observations at day-numbers 719173.1 and 719173.3 (epochtimes 872640 and
889920); every other tracked field carries 5 on row 0 and 3 on row 1. -/
def exOffInput : WxInput := ⟨[exRow 872640 0 5, exRow 889920 0 3]⟩

/-- Concrete input with a negative rainfall entry: 2 observations with
Rainfall values 0 and -1. -/
def exNegInput : WxInput := ⟨[exRow 0 0 0, exRow 86400 (-1) 0]⟩

end ReadWeewx

namespace ReadWeewx

lemma aggRun_zero (input : WxInput) (off : ℚ) : aggRun input off 0 = initState input := rfl

lemma aggRun_succ (input : WxInput) (off : ℚ) (k : ℕ) :
    aggRun input off (k + 1) = aggStep input off (aggRun input off k) k := by
  unfold aggRun
  rw [List.range_succ, List.foldl_append, List.foldl_cons, List.foldl_nil]

lemma aggStep_in (input : WxInput) (off : ℚ) (s : AggState) (r : ℕ)
    (h : input.adday r < (s.currday : ℚ) + 1 + off) :
    aggStep input off s r =
      { s with
        rain4day := s.rain4day + input.col rainfallIdx r
        maxvars := fun v c =>
          if v < numvars ∧ c = s.d ∧ s.maxvars v c < input.col v r then
            input.col v r
          else s.maxvars v c
        minvars := fun v c =>
          if v < numvars ∧ c = s.d ∧ input.col v r < s.minvars v c then
            input.col v r
          else s.minvars v c } := by
  rw [aggStep, if_pos h]

lemma aggStep_out (input : WxInput) (off : ℚ) (s : AggState) (r : ℕ)
    (h : ¬ input.adday r < (s.currday : ℚ) + 1 + off) :
    aggStep input off s r =
      { currday := ⌊input.adday r⌋
        d := s.d + 1
        rain4day := input.col rainfallIdx r
        rain4day_arr := s.rain4day_arr ++ [s.rain4day]
        dailydate := s.dailydate ++ [s.currday]
        maxvars := fun v c =>
          if v < numvars ∧ c = s.d + 1 then input.col v r else s.maxvars v c
        minvars := fun v c =>
          if v < numvars ∧ c = s.d + 1 then input.col v r else s.minvars v c } := by
  rw [aggStep, if_neg h]

lemma aggStep_d_ge (input : WxInput) (off : ℚ) (s : AggState) (r : ℕ) :
    s.d ≤ (aggStep input off s r).d := by
  by_cases h : input.adday r < (s.currday : ℚ) + 1 + off
  · rw [aggStep_in input off s r h]
  · rw [aggStep_out input off s r h]
    exact Nat.le_succ s.d

lemma aggRun_d_mono (input : WxInput) (off : ℚ) {k l : ℕ} (h : k ≤ l) :
    (aggRun input off k).d ≤ (aggRun input off l).d := by
  induction l with
  | zero =>
    have hk : k = 0 := Nat.le_zero.mp h
    subst hk
    exact le_refl _
  | succ m ih =>
    rcases Nat.lt_or_ge k (m + 1) with hk | hk
    · have h1 : (aggRun input off k).d ≤ (aggRun input off m).d :=
        ih (Nat.lt_succ_iff.mp hk)
      have h2 : (aggRun input off m).d ≤ (aggRun input off (m + 1)).d := by
        rw [aggRun_succ]
        exact aggStep_d_ge input off (aggRun input off m) m
      exact le_trans h1 h2
    · have : k = m + 1 := le_antisymm h hk
      subst this
      exact le_refl _

lemma aggRun_lengths (input : WxInput) (off : ℚ) (k : ℕ) :
    (aggRun input off k).dailydate.length = (aggRun input off k).d ∧
    (aggRun input off k).rain4day_arr.length = (aggRun input off k).d := by
  induction k with
  | zero => exact ⟨rfl, rfl⟩
  | succ m ih =>
    rw [aggRun_succ]
    by_cases h : input.adday m < ((aggRun input off m).currday : ℚ) + 1 + off
    · rw [aggStep_in input off _ m h]
      exact ih
    · rw [aggStep_out input off _ m h]
      simp only [List.length_append, List.length_singleton]
      omega

lemma aggRun_conservation (input : WxInput) (off : ℚ) (k : ℕ) :
    (aggRun input off k).rain4day_arr.sum + (aggRun input off k).rain4day =
      ((List.range k).map (input.col rainfallIdx)).sum := by
  induction k with
  | zero => simp [aggRun_zero, initState]
  | succ m ih =>
    rw [aggRun_succ, List.range_succ, List.map_append, List.sum_append]
    by_cases h : input.adday m < ((aggRun input off m).currday : ℚ) + 1 + off
    · rw [aggStep_in input off _ m h]
      simp only [List.map_cons, List.map_nil, List.sum_cons, List.sum_nil]
      rw [← ih]
      ring
    · rw [aggStep_out input off _ m h]
      simp only [List.sum_append, List.sum_cons, List.sum_nil,
        List.map_cons, List.map_nil]
      rw [← ih]
      ring

lemma list_map_getD_range {α : Type} (L : List α) (df : α) :
    (List.range L.length).map (fun r => L.getD r df) = L := by
  induction L with
  | nil => rfl
  | cons a t ih =>
    rw [List.length_cons, List.range_succ_eq_map, List.map_cons, List.map_map]
    show a :: List.map (fun r => t.getD r df) (List.range t.length) = a :: t
    rw [ih]

lemma map_col_range (input : WxInput) (v : ℕ) :
    (List.range input.nobs).map (fun r => input.col v r) = input.colList v := by
  have h1 : (List.range input.rows.length).map (fun r => input.rows.getD r (fun _ => 0)) =
      input.rows := list_map_getD_range input.rows (fun _ => 0)
  unfold WxInput.col WxInput.colList WxInput.nobs
  calc (List.range input.rows.length).map (fun r => (input.rows.getD r (fun _ => 0)) v)
      = ((List.range input.rows.length).map (fun r => input.rows.getD r (fun _ => 0))).map
          (fun t => t v) := by rw [List.map_map]; rfl
    _ = input.rows.map (fun t => t v) := by rw [h1]

lemma cumsumAux_length (l : List ℚ) : ∀ acc : ℚ, (cumsumAux acc l).length = l.length := by
  induction l with
  | nil => intro acc; rfl
  | cons x xs ih =>
    intro acc
    rw [cumsumAux, List.length_cons, List.length_cons, ih]

lemma cumsumAux_getLast (l : List ℚ) :
    ∀ acc : ℚ, l ≠ [] → (cumsumAux acc l).getLast? = some (acc + l.sum) := by
  induction l with
  | nil => intro acc h; exact absurd rfl h
  | cons x xs ih =>
    intro acc _
    cases xs with
    | nil => simp [cumsumAux]
    | cons y ys =>
      have h1 : cumsumAux acc (x :: y :: ys) =
          (acc + x) :: cumsumAux (acc + x) (y :: ys) := rfl
      have h2 : cumsumAux (acc + x) (y :: ys) =
          (acc + x + y) :: cumsumAux (acc + x + y) ys := rfl
      rw [h1, h2, List.getLast?_cons_cons, ← h2,
        ih (acc + x) (List.cons_ne_nil y ys)]
      simp only [List.sum_cons]
      ring_nf

lemma cumsumAux_head (x : ℚ) (xs : List ℚ) (acc : ℚ) :
    (cumsumAux acc (x :: xs)).head? = some (acc + x) := rfl

lemma cumsumAux_chain (l : List ℚ) :
    ∀ acc : ℚ, (∀ x ∈ l, 0 ≤ x) → List.Chain' (· ≤ ·) (cumsumAux acc l) := by
  induction l with
  | nil => intro acc _; exact List.chain'_nil
  | cons x xs ih =>
    intro acc hpos
    rw [cumsumAux]
    apply List.chain'_cons'.mpr
    constructor
    · intro y hy
      rcases xs with _ | ⟨z, zs⟩
      · simp [cumsumAux] at hy
      · rw [cumsumAux_head] at hy
        have hz : 0 ≤ z := hpos z (by simp)
        have : y = acc + x + z := by
          injection hy with h
          exact h.symm
        rw [this]
        linarith
    · exact ih (acc + x) (fun y hy => hpos y (List.mem_cons_of_mem x hy))

end ReadWeewx

namespace ReadWeewx

lemma out_branch_floor (input : WxInput) (off : ℚ) (s : AggState) (r : ℕ)
    (hoff : 0 ≤ off) (h : ¬ input.adday r < (s.currday : ℚ) + 1 + off) :
    s.currday + 1 ≤ ⌊input.adday r⌋ := by
  apply Int.le_floor.mpr
  push_cast
  linarith [not_lt.mp h]

lemma dailydate_chain (input : WxInput) (off : ℚ) (hoff : 0 ≤ off) (k : ℕ) :
    List.Chain' (· < ·)
      ((aggRun input off k).dailydate ++ [(aggRun input off k).currday]) := by
  induction k with
  | zero => simp [aggRun_zero, initState]
  | succ m ih =>
    rw [aggRun_succ]
    by_cases h : input.adday m < ((aggRun input off m).currday : ℚ) + 1 + off
    · rw [aggStep_in input off _ m h]
      exact ih
    · rw [aggStep_out input off _ m h]
      have hlt : (aggRun input off m).currday < ⌊input.adday m⌋ := by
        have := out_branch_floor input off (aggRun input off m) m hoff h
        omega
      apply List.chain'_append.mpr
      refine ⟨ih, List.chain'_singleton _, ?_⟩
      intro x hx y hy
      simp only [List.head?_cons, Option.mem_def, Option.some.injEq] at hy
      have hxl : x = (aggRun input off m).currday := by
        rw [List.getLast?_concat] at hx
        simp only [Option.mem_def, Option.some.injEq] at hx
        exact hx.symm
      rw [hxl, ← hy]
      exact hlt

lemma adday_mono_epoch (e1 e2 : ℚ) (h : e1 ≤ e2) : epoch2num e1 ≤ epoch2num e2 := by
  unfold epoch2num
  have : e1 / 86400 ≤ e2 / 86400 := by
    apply div_le_div_of_nonneg_right h
    norm_num
  linarith

lemma ascending_mono (input : WxInput) (hasc : Ascending input) :
    ∀ i j, i ≤ j → j < input.nobs →
      input.col epochtimeIdx i ≤ input.col epochtimeIdx j := by
  intro i j hij
  induction hij with
  | refl => intro _; exact le_refl _
  | @step m hm ih =>
    intro hj
    have hmn : m < input.nobs := Nat.lt_of_succ_lt hj
    exact le_trans (ih hmn) (hasc m hmn hj)

lemma adday_asc (input : WxInput) (hasc : Ascending input) :
    ∀ i j, i ≤ j → j < input.nobs → input.adday i ≤ input.adday j := by
  intro i j hij hj
  exact adday_mono_epoch _ _ (ascending_mono input hasc i j hij hj)

lemma floor_sub_floor_le_ceil (x y : ℚ) : ⌊x⌋ - ⌊y⌋ ≤ ⌈x - y⌉ := by
  have h1 : (⌊x⌋ : ℚ) ≤ x := Int.floor_le x
  have h2 : y < (⌊y⌋ : ℚ) + 1 := Int.lt_floor_add_one y
  have h3 : x - y ≤ ((⌈x - y⌉ : ℤ) : ℚ) := Int.le_ceil _
  have h4 : ((⌊x⌋ - ⌊y⌋ - 1 : ℤ) : ℚ) < ((⌈x - y⌉ : ℤ) : ℚ) := by
    push_cast
    linarith
  have h5 : ⌊x⌋ - ⌊y⌋ - 1 < ⌈x - y⌉ := by exact_mod_cast h4
  omega

lemma currday_bound (input : WxInput) (off : ℚ) (hoff : 0 ≤ off) (k : ℕ) :
    ((aggRun input off k).d : ℤ) ≤ (aggRun input off k).currday - ⌊input.adday 0⌋ ∧
    ∃ j, j < max k 1 ∧ (aggRun input off k).currday = ⌊input.adday j⌋ := by
  induction k with
  | zero =>
    refine ⟨by simp [aggRun_zero, initState], 0, by norm_num, by simp [aggRun_zero, initState]⟩
  | succ m ih =>
    rw [aggRun_succ]
    by_cases h : input.adday m < ((aggRun input off m).currday : ℚ) + 1 + off
    · rw [aggStep_in input off _ m h]
      obtain ⟨hd, j, hj, hcd⟩ := ih
      exact ⟨hd, j, lt_of_lt_of_le hj (by omega), hcd⟩
    · rw [aggStep_out input off _ m h]
      obtain ⟨hd, _, _, _⟩ := ih
      have hfl := out_branch_floor input off (aggRun input off m) m hoff h
      constructor
      · push_cast
        omega
      · exact ⟨m, by omega, rfl⟩

end ReadWeewx

namespace ReadWeewx

lemma bucketOf_le (input : WxInput) (off : ℚ) {r k : ℕ} (h : r < k) :
    bucketOf input off r ≤ (aggRun input off k).d :=
  aggRun_d_mono input off (Nat.succ_le_of_lt h)

lemma first_step_in (input : WxInput) (off : ℚ) (hoff : 0 ≤ off) :
    input.adday 0 < ((initState input).currday : ℚ) + 1 + off := by
  show input.adday 0 < ((⌊input.adday 0⌋ : ℤ) : ℚ) + 1 + off
  have := Int.lt_floor_add_one (input.adday 0)
  linarith

lemma aggRun_one_d (input : WxInput) (off : ℚ) (hoff : 0 ≤ off) :
    (aggRun input off 1).d = 0 := by
  rw [aggRun_succ, aggRun_zero, aggStep_in input off _ 0 (first_step_in input off hoff)]
  rfl

lemma aggRun_one_max (input : WxInput) (off : ℚ) (hoff : 0 ≤ off) (v : ℕ)
    (hv : v < numvars) : (aggRun input off 1).maxvars v 0 = input.col v 0 := by
  rw [aggRun_succ, aggRun_zero, aggStep_in input off _ 0 (first_step_in input off hoff)]
  simp [initState, hv, lt_irrefl]

lemma aggRun_one_min (input : WxInput) (off : ℚ) (hoff : 0 ≤ off) (v : ℕ)
    (hv : v < numvars) : (aggRun input off 1).minvars v 0 = input.col v 0 := by
  rw [aggRun_succ, aggRun_zero, aggStep_in input off _ 0 (first_step_in input off hoff)]
  simp [initState, hv, lt_irrefl]

lemma maxmin_inv (input : WxInput) (off : ℚ) (hoff : 0 ≤ off) :
    ∀ k, 1 ≤ k → ∀ v, v < numvars → ∀ b, b ≤ (aggRun input off k).d →
      ((∃ r, r < k ∧ bucketOf input off r = b ∧
          (aggRun input off k).maxvars v b = input.col v r) ∧
       (∀ r, r < k → bucketOf input off r = b →
          input.col v r ≤ (aggRun input off k).maxvars v b) ∧
       (∃ r, r < k ∧ bucketOf input off r = b ∧
          (aggRun input off k).minvars v b = input.col v r) ∧
       (∀ r, r < k → bucketOf input off r = b →
          (aggRun input off k).minvars v b ≤ input.col v r)) := by
  intro k
  induction k with
  | zero => omega
  | succ m ih =>
    intro _ v hv b hb
    rcases Nat.eq_zero_or_pos m with hm | hm
    · subst hm
      have hb0 : b = 0 := by
        rw [aggRun_one_d input off hoff] at hb
        omega
      subst hb0
      have hbk : bucketOf input off 0 = 0 := aggRun_one_d input off hoff
      refine ⟨⟨0, Nat.one_pos, hbk, aggRun_one_max input off hoff v hv⟩, ?_,
        ⟨0, Nat.one_pos, hbk, aggRun_one_min input off hoff v hv⟩, ?_⟩
      · intro r hr _
        have hr0 : r = 0 := by omega
        subst hr0
        rw [aggRun_one_max input off hoff v hv]
      · intro r hr _
        have hr0 : r = 0 := by omega
        subst hr0
        rw [aggRun_one_min input off hoff v hv]
    · have hm1 : 1 ≤ m := hm
      by_cases h : input.adday m < ((aggRun input off m).currday : ℚ) + 1 + off
      · have hstep := aggStep_in input off (aggRun input off m) m h
        have hd : (aggRun input off (m + 1)).d = (aggRun input off m).d := by
          rw [aggRun_succ, hstep]
        have hbm : bucketOf input off m = (aggRun input off m).d := by
          unfold bucketOf
          rw [aggRun_succ, hstep]
        have hmax : ∀ c, (aggRun input off (m + 1)).maxvars v c =
            if v < numvars ∧ c = (aggRun input off m).d ∧
                (aggRun input off m).maxvars v c < input.col v m then
              input.col v m
            else (aggRun input off m).maxvars v c := by
          intro c
          rw [aggRun_succ, hstep]
        have hmin : ∀ c, (aggRun input off (m + 1)).minvars v c =
            if v < numvars ∧ c = (aggRun input off m).d ∧
                input.col v m < (aggRun input off m).minvars v c then
              input.col v m
            else (aggRun input off m).minvars v c := by
          intro c
          rw [aggRun_succ, hstep]
        rw [hd] at hb
        obtain ⟨⟨r1, hr1, hrb1, heq1⟩, hub, ⟨r2, hr2, hrb2, heq2⟩, hlb⟩ :=
          ih hm1 v hv b hb
        by_cases hbd : b = (aggRun input off m).d
        · have hmaxval : (aggRun input off (m + 1)).maxvars v b =
              max ((aggRun input off m).maxvars v b) (input.col v m) := by
            rw [hmax b]
            by_cases hltx : (aggRun input off m).maxvars v b < input.col v m
            · rw [if_pos ⟨hv, hbd, hltx⟩, max_eq_right (le_of_lt hltx)]
            · have hne : ¬ (v < numvars ∧ b = (aggRun input off m).d ∧
                  (aggRun input off m).maxvars v b < input.col v m) :=
                fun hc => hltx hc.2.2
              rw [if_neg hne, max_eq_left (not_lt.mp hltx)]
          have hminval : (aggRun input off (m + 1)).minvars v b =
              min ((aggRun input off m).minvars v b) (input.col v m) := by
            rw [hmin b]
            by_cases hltx : input.col v m < (aggRun input off m).minvars v b
            · rw [if_pos ⟨hv, hbd, hltx⟩, min_eq_right (le_of_lt hltx)]
            · have hne : ¬ (v < numvars ∧ b = (aggRun input off m).d ∧
                  input.col v m < (aggRun input off m).minvars v b) :=
                fun hc => hltx hc.2.2
              rw [if_neg hne, min_eq_left (not_lt.mp hltx)]
          refine ⟨?_, ?_, ?_, ?_⟩
          · rcases le_total ((aggRun input off m).maxvars v b) (input.col v m) with hle | hle
            · exact ⟨m, Nat.lt_succ_self m, hbm.trans hbd.symm, by
                rw [hmaxval, max_eq_right hle]⟩
            · exact ⟨r1, Nat.lt_succ_of_lt hr1, hrb1, by
                rw [hmaxval, max_eq_left hle, heq1]⟩
          · intro r hr hrb
            rw [hmaxval]
            rcases Nat.lt_succ_iff_lt_or_eq.mp hr with hrm | hrm
            · exact le_trans (hub r hrm hrb) (le_max_left _ _)
            · rw [hrm]
              exact le_max_right _ _
          · rcases le_total ((aggRun input off m).minvars v b) (input.col v m) with hle | hle
            · exact ⟨r2, Nat.lt_succ_of_lt hr2, hrb2, by
                rw [hminval, min_eq_left hle, heq2]⟩
            · exact ⟨m, Nat.lt_succ_self m, hbm.trans hbd.symm, by
                rw [hminval, min_eq_right hle]⟩
          · intro r hr hrb
            rw [hminval]
            rcases Nat.lt_succ_iff_lt_or_eq.mp hr with hrm | hrm
            · exact le_trans (min_le_left _ _) (hlb r hrm hrb)
            · rw [hrm]
              exact min_le_right _ _
        · have hnotm : ∀ p : Prop, ¬ (v < numvars ∧ b = (aggRun input off m).d ∧ p) :=
            fun p hc => hbd hc.2.1
          have hmaxval : (aggRun input off (m + 1)).maxvars v b =
              (aggRun input off m).maxvars v b := by
            rw [hmax b, if_neg (hnotm _)]
          have hminval : (aggRun input off (m + 1)).minvars v b =
              (aggRun input off m).minvars v b := by
            rw [hmin b, if_neg (hnotm _)]
          have hrowm : ∀ r, r = m → bucketOf input off r = b → False := by
            intro r hrm hrb
            rw [hrm] at hrb
            exact hbd (hrb.symm.trans hbm)
          refine ⟨⟨r1, Nat.lt_succ_of_lt hr1, hrb1, hmaxval.trans heq1⟩, ?_,
            ⟨r2, Nat.lt_succ_of_lt hr2, hrb2, hminval.trans heq2⟩, ?_⟩
          · intro r hr hrb
            rcases Nat.lt_succ_iff_lt_or_eq.mp hr with hrm | hrm
            · rw [hmaxval]
              exact hub r hrm hrb
            · exact (hrowm r hrm hrb).elim
          · intro r hr hrb
            rcases Nat.lt_succ_iff_lt_or_eq.mp hr with hrm | hrm
            · rw [hminval]
              exact hlb r hrm hrb
            · exact (hrowm r hrm hrb).elim
      · have hstep := aggStep_out input off (aggRun input off m) m h
        have hd : (aggRun input off (m + 1)).d = (aggRun input off m).d + 1 := by
          rw [aggRun_succ, hstep]
        have hbm : bucketOf input off m = (aggRun input off m).d + 1 := by
          unfold bucketOf
          rw [aggRun_succ, hstep]
        have hmax : ∀ c, (aggRun input off (m + 1)).maxvars v c =
            if v < numvars ∧ c = (aggRun input off m).d + 1 then input.col v m
            else (aggRun input off m).maxvars v c := by
          intro c
          rw [aggRun_succ, hstep]
        have hmin : ∀ c, (aggRun input off (m + 1)).minvars v c =
            if v < numvars ∧ c = (aggRun input off m).d + 1 then input.col v m
            else (aggRun input off m).minvars v c := by
          intro c
          rw [aggRun_succ, hstep]
        rw [hd] at hb
        by_cases hbd : b = (aggRun input off m).d + 1
        · have hmaxval : (aggRun input off (m + 1)).maxvars v b = input.col v m := by
            rw [hmax b, if_pos ⟨hv, hbd⟩]
          have hminval : (aggRun input off (m + 1)).minvars v b = input.col v m := by
            rw [hmin b, if_pos ⟨hv, hbd⟩]
          have hold : ∀ r, r < m → bucketOf input off r ≠ b := by
            intro r hr hc
            have := bucketOf_le input off hr
            omega
          refine ⟨⟨m, Nat.lt_succ_self m, hbm.trans hbd.symm, hmaxval⟩, ?_,
            ⟨m, Nat.lt_succ_self m, hbm.trans hbd.symm, hminval⟩, ?_⟩
          · intro r hr hrb
            rcases Nat.lt_succ_iff_lt_or_eq.mp hr with hrm | hrm
            · exact absurd hrb (hold r hrm)
            · rw [hrm, hmaxval]
          · intro r hr hrb
            rcases Nat.lt_succ_iff_lt_or_eq.mp hr with hrm | hrm
            · exact absurd hrb (hold r hrm)
            · rw [hrm, hminval]
        · have hble : b ≤ (aggRun input off m).d := by omega
          obtain ⟨⟨r1, hr1, hrb1, heq1⟩, hub, ⟨r2, hr2, hrb2, heq2⟩, hlb⟩ :=
            ih hm1 v hv b hble
          have hne : ¬ (v < numvars ∧ b = (aggRun input off m).d + 1) :=
            fun hc => hbd hc.2
          have hmaxval : (aggRun input off (m + 1)).maxvars v b =
              (aggRun input off m).maxvars v b := by
            rw [hmax b, if_neg hne]
          have hminval : (aggRun input off (m + 1)).minvars v b =
              (aggRun input off m).minvars v b := by
            rw [hmin b, if_neg hne]
          have hrowm : ∀ r, r = m → bucketOf input off r = b → False := by
            intro r hrm hrb
            rw [hrm] at hrb
            exact hbd (hrb.symm.trans hbm)
          refine ⟨⟨r1, Nat.lt_succ_of_lt hr1, hrb1, hmaxval.trans heq1⟩, ?_,
            ⟨r2, Nat.lt_succ_of_lt hr2, hrb2, hminval.trans heq2⟩, ?_⟩
          · intro r hr hrb
            rcases Nat.lt_succ_iff_lt_or_eq.mp hr with hrm | hrm
            · rw [hmaxval]
              exact hub r hrm hrb
            · exact (hrowm r hrm hrb).elim
          · intro r hr hrb
            rcases Nat.lt_succ_iff_lt_or_eq.mp hr with hrm | hrm
            · rw [hminval]
              exact hlb r hrm hrb
            · exact (hrowm r hrm hrb).elim

end ReadWeewx

namespace ReadWeewx

lemma d_lt_allocWidth (input : WxInput) (off : ℚ) (h0 : 0 < input.nobs)
    (hasc : Ascending input) (h1 : 0 ≤ off) (k : ℕ) (hk : k ≤ input.nobs) :
    ((aggRun input off k).d : ℤ) ≤ ⌈input.adday (input.nobs - 1) - input.adday 0⌉ ∧
    (aggRun input off k).d < allocWidth input := by
  obtain ⟨hd, j, hj, hcd⟩ := currday_bound input off h1 k
  have hjn : j < input.nobs := by omega
  have hjle : j ≤ input.nobs - 1 := by omega
  have haj : input.adday j ≤ input.adday (input.nobs - 1) :=
    adday_asc input hasc j (input.nobs - 1) hjle (by omega)
  have hfl : ⌊input.adday j⌋ ≤ ⌊input.adday (input.nobs - 1)⌋ := Int.floor_le_floor haj
  have hfc : ⌊input.adday (input.nobs - 1)⌋ - ⌊input.adday 0⌋ ≤
      ⌈input.adday (input.nobs - 1) - input.adday 0⌉ :=
    floor_sub_floor_le_ceil _ _
  have hax : ((aggRun input off k).d : ℤ) ≤
      ⌈input.adday (input.nobs - 1) - input.adday 0⌉ := by
    rw [hcd] at hd
    omega
  refine ⟨hax, ?_⟩
  have ha0 : input.adday 0 ≤ input.adday (input.nobs - 1) :=
    adday_asc input hasc 0 (input.nobs - 1) (Nat.zero_le _) (by omega)
  have hnn : 0 ≤ ⌈input.adday (input.nobs - 1) - input.adday 0⌉ :=
    Int.ceil_nonneg (by linarith)
  unfold allocWidth
  omega

/-- C1 (amended): for every non-empty input, with the day-boundary offset in
[0, 1), for every tracked field v and every day bucket b the aggregator
produces, the emitted per-bucket maximum (minimum) is attained by some
observation the scan assigns to bucket b and is an upper (lower) bound on
every observation the scan assigns to bucket b — i.e. it is the true
maximum (minimum) over exactly the observations of that bucket, where
bucket membership is the one realised by the boundary test
ADdays[r] < currday + 1.0 + gmt_offset, not the conceptual adjusted
day-floor floor(dayNumber - offset) of the glossary. -/
theorem C1_minmax_correct (input : WxInput) (off : ℚ) (v b r : ℕ)
    (h0 : 0 < input.nobs) (hasc : Ascending input) (h1 : 0 ≤ off) (h2 : off < 1)
    (hv : v < numvars) (hb : b < numBuckets input off)
    (hr : r < input.nobs) (hrb : bucketOf input off r = b) :
    (∃ j, j < input.nobs ∧ bucketOf input off j = b ∧
        (finalState input off).maxvars v b = input.col v j) ∧
    input.col v r ≤ (finalState input off).maxvars v b ∧
    (∃ j, j < input.nobs ∧ bucketOf input off j = b ∧
        (finalState input off).minvars v b = input.col v j) ∧
    (finalState input off).minvars v b ≤ input.col v r := by
  have hble : b ≤ (aggRun input off input.nobs).d := by
    unfold numBuckets finalState at hb
    omega
  obtain ⟨⟨j1, hj1, hjb1, he1⟩, hub, ⟨j2, hj2, hjb2, he2⟩, hlb⟩ :=
    maxmin_inv input off h1 input.nobs h0 v hv b hble
  exact ⟨⟨j1, hj1, hjb1, he1⟩, hub r hr hrb, ⟨j2, hj2, hjb2, he2⟩, hlb r hr hrb⟩

/-- C3 (confirmed): for every non-empty input the sum of the emitted
per-bucket daily rainfall totals (Rain4Day) equals the sum of the raw
Rainfall column over the entire input. -/
theorem C3_rain_conservation (input : WxInput) (off : ℚ) (h0 : 0 < input.nobs) :
    (rain4dayArr input off).sum = (input.colList rainfallIdx).sum := by
  unfold rain4dayArr finalState
  rw [List.sum_append, List.sum_singleton, aggRun_conservation input off input.nobs,
    map_col_range]

/-- C4 (amended): ADDailyDate and Rain4Day have length equal to the number
of day buckets produced, but every per-field Max and Min sequence has the
pre-allocated length ceil(lastDay - firstDay) + 1, which is only an upper
bound on the bucket count (trailing columns keep the np.zeros fill). -/
theorem C4_daily_lengths (input : WxInput) (off : ℚ) (v : ℕ)
    (h0 : 0 < input.nobs) (hasc : Ascending input) (h1 : 0 ≤ off) (h2 : off < 1) :
    (dailydateArr input off).length = numBuckets input off ∧
    (rain4dayArr input off).length = numBuckets input off ∧
    (maxSeq input off v).length = allocWidth input ∧
    (minSeq input off v).length = allocWidth input ∧
    numBuckets input off ≤ allocWidth input := by
  obtain ⟨hdl, hrl⟩ := aggRun_lengths input off input.nobs
  have hw := (d_lt_allocWidth input off h0 hasc h1 input.nobs (le_refl _)).2
  unfold dailydateArr rain4dayArr numBuckets maxSeq minSeq finalState
  refine ⟨?_, ?_, ?_, ?_, ?_⟩
  · rw [List.length_append, List.length_singleton, hdl]
  · rw [List.length_append, List.length_singleton, hrl]
  · rw [List.length_map, List.length_range]
  · rw [List.length_map, List.length_range]
  · omega

/-- C5 (amended): for every non-empty input with offset in [0, 1), the
emitted day-floor sequence ADDailyDate is strictly increasing (so the
number of buckets equals the number of distinct day-floor values actually
recorded, one per bucket-opening observation); every observation is
assigned to exactly one bucket index below the bucket count, and every
bucket contains at least one observation.  The number of buckets does NOT
in general equal the number of distinct conceptual adjusted-day-floor
values floor(dayNumber - offset). -/
theorem C5_bucket_coverage (input : WxInput) (off : ℚ) (r b : ℕ)
    (h0 : 0 < input.nobs) (hasc : Ascending input) (h1 : 0 ≤ off) (h2 : off < 1)
    (hr : r < input.nobs) (hb : b < numBuckets input off) :
    List.Chain' (· < ·) (dailydateArr input off) ∧
    bucketOf input off r < numBuckets input off ∧
    (∃ j, j < input.nobs ∧ bucketOf input off j = b) := by
  refine ⟨dailydate_chain input off h1 input.nobs, ?_, ?_⟩
  · have := bucketOf_le input off hr
    unfold numBuckets finalState
    omega
  · have hble : b ≤ (aggRun input off input.nobs).d := by
      unfold numBuckets finalState at hb
      omega
    obtain ⟨⟨j, hj, hjb, _⟩, _, _, _⟩ :=
      maxmin_inv input off h1 input.nobs h0 0 (by norm_num [numvars]) b hble
    exact ⟨j, hj, hjb⟩

/-- C6 (amended): for every non-empty input whose Rainfall values are all
nonnegative, the CumulativeRain column is non-decreasing, and its last
value equals the total raw rainfall sum.  (On a raw Rainfall column with a
negative entry the cumulative sum is not non-decreasing, so the
nonnegativity hypothesis is required.) -/
theorem C6_cumulative_rain (input : WxInput) (h0 : 0 < input.nobs)
    (hrn : ∀ x ∈ input.colList rainfallIdx, 0 ≤ x) :
    List.Chain' (· ≤ ·) (cumulativeRain input) ∧
    (cumulativeRain input).getLast? = some ((input.colList rainfallIdx).sum) := by
  constructor
  · exact cumsumAux_chain _ 0 hrn
  · have hne : input.colList rainfallIdx ≠ [] := by
      unfold WxInput.colList
      intro hc
      have hlen := congrArg List.length hc
      simp only [List.length_map, List.length_nil] at hlen
      unfold WxInput.nobs at h0
      omega
    have hlast := cumsumAux_getLast (input.colList rainfallIdx) 0 hne
    rw [cumulativeRain, cumsum, hlast, zero_add]

/-- C7 (confirmed): the boundary comparison is strict less-than, so an
observation whose day-number equals currday + 1.0 + gmt_offset exactly is
not added to the open bucket: the open bucket is closed (its rainfall
total and day-floor are appended) and a new bucket is opened seeded
entirely from that observation (day counter incremented, currday
refloored, rainfall accumulator and every tracked field's max/min set to
that observation's values). -/
theorem C7_boundary_strict (input : WxInput) (off : ℚ) (s : AggState) (r v : ℕ)
    (hv : v < numvars)
    (hb : input.adday r = (s.currday : ℚ) + 1 + off) :
    (aggStep input off s r).d = s.d + 1 ∧
    (aggStep input off s r).dailydate = s.dailydate ++ [s.currday] ∧
    (aggStep input off s r).rain4day_arr = s.rain4day_arr ++ [s.rain4day] ∧
    (aggStep input off s r).rain4day = input.col rainfallIdx r ∧
    (aggStep input off s r).currday = ⌊input.adday r⌋ ∧
    (aggStep input off s r).maxvars v (s.d + 1) = input.col v r ∧
    (aggStep input off s r).minvars v (s.d + 1) = input.col v r := by
  have hnot : ¬ input.adday r < (s.currday : ℚ) + 1 + off := by
    rw [hb]
    exact lt_irrefl _
  rw [aggStep_out input off s r hnot]
  refine ⟨rfl, rfl, rfl, rfl, rfl, ?_, ?_⟩
  · simp [hv]
  · simp [hv]

/-- C9 (confirmed): every field sequence of the populated raw store (the
52 ingested columns, keys 0..51), including the appended derived columns
ADdays (key 52) and CumulativeRain (key 53), has length equal to the
observation count, and the append leaves every pre-existing field column
exactly as ingested. -/
theorem C9_raw_lengths (input : WxInput) (v w : ℕ) (h0 : 0 < input.nobs)
    (hv : v < 54) (hw : w < 52) :
    (rawStoreFinal input v).length = input.nobs ∧
    rawStoreFinal input w = input.colList w := by
  constructor
  · unfold rawStoreFinal
    by_cases h52 : v = 52
    · rw [if_pos h52]
      unfold addaysList WxInput.colList WxInput.nobs
      simp
    · rw [if_neg h52]
      by_cases h53 : v = 53
      · rw [if_pos h53]
        unfold cumulativeRain cumsum
        rw [cumsumAux_length]
        unfold WxInput.colList WxInput.nobs
        simp
      · rw [if_neg h53]
        unfold WxInput.colList WxInput.nobs
        simp
  · unfold rawStoreFinal
    rw [if_neg (by omega), if_neg (by omega)]

/-- C10 (confirmed): for every non-empty timestamp-ascending input and
every offset in [0, 1), at every point of the loop the day counter d never
exceeds ceil(lastDayNumber - firstDayNumber), hence every indexed write
maxvars[v, d] / minvars[v, d] is within the pre-allocated width
ceil(lastDayNumber - firstDayNumber) + 1. -/
theorem C10_writes_in_bounds (input : WxInput) (off : ℚ) (k : ℕ)
    (h0 : 0 < input.nobs) (hasc : Ascending input) (h1 : 0 ≤ off) (h2 : off < 1)
    (hk : k ≤ input.nobs) :
    ((aggRun input off k).d : ℤ) ≤ ⌈input.adday (input.nobs - 1) - input.adday 0⌉ ∧
    (aggRun input off k).d < allocWidth input :=
  d_lt_allocWidth input off h0 hasc h1 k hk

end ReadWeewx

namespace ReadWeewx

lemma exInput_nobs : exInput.nobs = 3 := rfl

lemma exInput_ascending : Ascending exInput := by
  intro i hi hi1
  rw [exInput_nobs] at hi hi1
  interval_cases i <;>
    norm_num [WxInput.col, exInput, exRow, epochtimeIdx, rainfallIdx]

lemma exInput_allocWidth : allocWidth exInput = 3 := by
  have hc : (⌈(11/10 : ℚ)⌉ : ℤ) = 2 := by
    rw [Int.ceil_eq_iff]
    constructor <;> norm_num
  norm_num [allocWidth, WxInput.nobs, exInput, WxInput.adday, WxInput.col, exRow,
    epoch2num, epochtimeIdx, rainfallIdx, hc]
  decide

lemma exInput_daily : dailydateArr exInput 0 = [100, 101] := by
  norm_num [dailydateArr, finalState, WxInput.nobs, exInput,
    aggRun_succ, aggRun_zero, aggStep, initState, exRow,
    WxInput.adday, WxInput.col, epoch2num, epochtimeIdx, rainfallIdx]

lemma exInput_rain : rain4dayArr exInput 0 = [3/10, 1/20] := by
  norm_num [rain4dayArr, finalState, WxInput.nobs, exInput,
    aggRun_succ, aggRun_zero, aggStep, initState, exRow,
    WxInput.adday, WxInput.col, epoch2num, epochtimeIdx, rainfallIdx]

lemma exInput_numBuckets : numBuckets exInput 0 = 2 := by
  norm_num [numBuckets, finalState, WxInput.nobs, exInput,
    aggRun_succ, aggRun_zero, aggStep, initState, exRow,
    WxInput.adday, WxInput.col, epoch2num, epochtimeIdx, rainfallIdx]

lemma exInput_bucketOf :
    bucketOf exInput 0 0 = 0 ∧ bucketOf exInput 0 1 = 0 ∧ bucketOf exInput 0 2 = 1 := by
  refine ⟨?_, ?_, ?_⟩ <;>
    norm_num [bucketOf, aggRun_succ, aggRun_zero, aggStep, initState, exInput, exRow,
      WxInput.adday, WxInput.col, epoch2num, epochtimeIdx, rainfallIdx]

lemma exInput_maxmin : ∀ v < numvars,
    (finalState exInput 0).maxvars v 0 = max (exInput.col v 0) (exInput.col v 1) ∧
    (finalState exInput 0).minvars v 0 = min (exInput.col v 0) (exInput.col v 1) ∧
    (finalState exInput 0).maxvars v 1 = exInput.col v 2 ∧
    (finalState exInput 0).minvars v 1 = exInput.col v 2 := by
  intro v hv
  by_cases hv0 : v = 0
  · subst hv0
    norm_num [finalState, WxInput.nobs, exInput, aggRun_succ, aggRun_zero, aggStep,
      initState, exRow, WxInput.adday, WxInput.col, epoch2num, epochtimeIdx,
      rainfallIdx, numvars]
  · by_cases hv15 : v = 15
    · subst hv15
      norm_num [finalState, WxInput.nobs, exInput, aggRun_succ, aggRun_zero, aggStep,
        initState, exRow, WxInput.adday, WxInput.col, epoch2num, epochtimeIdx,
        rainfallIdx, numvars]
    · have hv52 : v < 52 := hv
      norm_num [finalState, WxInput.nobs, exInput, aggRun_succ, aggRun_zero, aggStep,
        initState, exRow, WxInput.adday, WxInput.col, epoch2num, epochtimeIdx,
        rainfallIdx, numvars, hv0, hv15, hv52]

lemma exInput_rainCol : exInput.colList rainfallIdx = [1/10, 2/10, 1/20] := by
  norm_num [WxInput.colList, exInput, exRow, rainfallIdx, epochtimeIdx]

/-- C2 (confirmed): on the concrete input of 3 observations at continuous
day-numbers 100.2, 100.9, 101.3 with dayOffsetFraction 0 and rainfall
0.1, 0.2, 0.05, the aggregator emits exactly 2 buckets: bucket 0 (day
floor 100) receives observations 0 and 1 with rainfall total 0.3 and
per-field max/min over those two rows, and bucket 1 (day floor 101)
receives observation 2 alone with rainfall total 0.05 and max = min =
that row's values. -/
theorem C2_concrete_scenario :
    numBuckets exInput 0 = 2 ∧
    dailydateArr exInput 0 = [100, 101] ∧
    rain4dayArr exInput 0 = [3/10, 1/20] ∧
    bucketOf exInput 0 0 = 0 ∧ bucketOf exInput 0 1 = 0 ∧ bucketOf exInput 0 2 = 1 ∧
    (∀ v < numvars,
      (finalState exInput 0).maxvars v 0 = max (exInput.col v 0) (exInput.col v 1) ∧
      (finalState exInput 0).minvars v 0 = min (exInput.col v 0) (exInput.col v 1) ∧
      (finalState exInput 0).maxvars v 1 = exInput.col v 2 ∧
      (finalState exInput 0).minvars v 1 = exInput.col v 2) :=
  ⟨exInput_numBuckets, exInput_daily, exInput_rain, exInput_bucketOf.1,
    exInput_bucketOf.2.1, exInput_bucketOf.2.2, exInput_maxmin⟩

end ReadWeewx

namespace ReadWeewx

lemma exC8_aidx : aidx exC8Input 0 100 = [] := by
  norm_num [aidx, WxInput.nobs, exC8Input, List.range_succ, WxInput.col, exRow,
    epochtimeIdx, rainfallIdx, List.filter]

lemma exC8_allocWidth : allocWidth exC8Input = 4 := by
  have hc : (⌈(27/10 : ℚ)⌉ : ℤ) = 3 := by
    rw [Int.ceil_eq_iff]
    constructor <;> norm_num
  norm_num [allocWidth, WxInput.nobs, exC8Input, WxInput.adday, WxInput.col, exRow,
    epoch2num, epochtimeIdx, rainfallIdx, hc]
  decide

lemma exC8_bounds : noRangeBounds exC8Input (1/4) = (864000, 0) := by
  simp only [noRangeBounds, minSeq, maxSeq, exC8_allocWidth]
  norm_num [List.range_succ, finalState, WxInput.nobs, exC8Input, aggRun_succ,
    aggRun_zero, aggStep, initState, exRow, WxInput.adday, WxInput.col, epoch2num,
    epochtimeIdx, rainfallIdx, numvars]

/-- C8 (code bug): on the 2-observation input with epochtimes 864000 and
1097280 (2.7 days apart) and gmt_offset 0.25, a clamped raw-store
selection over the range [0, 100] (entirely before the data) takes the
empty-range error branch, and the bounds it reports are
(MinEpochtime[0], MaxEpochtime[-2]) = (864000, 0): the reported maximum
available epoch is the np.zeros fill of an unwritten trailing column of
maxvars, not the true maximum available epoch 1097280 carried by the last
observation. -/
theorem C8_error_bounds_bug :
    selectRawClamped exC8Input (1/4) 0 100 = Except.error (864000, 0) ∧
    exC8Input.col epochtimeIdx (exC8Input.nobs - 1) = 1097280 ∧
    (0 : ℚ) ≠ 1097280 := by
  refine ⟨?_, ?_, by norm_num⟩
  · rw [selectRawClamped, if_pos exC8_aidx, exC8_bounds]
  · norm_num [WxInput.col, WxInput.nobs, exC8Input, exRow, epochtimeIdx, rainfallIdx]

lemma exOff_floors : adjustedDayFloor exOffInput (1/5) 0 = 719172 ∧
    adjustedDayFloor exOffInput (1/5) 1 = 719173 := by
  constructor <;>
    norm_num [adjustedDayFloor, WxInput.adday, WxInput.col, exOffInput, exRow,
      epoch2num, epochtimeIdx, rainfallIdx]

lemma exOff_daily : dailydateArr exOffInput (1/5) = [719173] ∧
    (finalState exOffInput (1/5)).maxvars 1 0 = 5 ∧
    numBuckets exOffInput (1/5) = 1 := by
  refine ⟨?_, ?_, ?_⟩ <;>
    norm_num [dailydateArr, numBuckets, finalState, WxInput.nobs, exOffInput, exRow,
      aggRun_succ, aggRun_zero, aggStep, initState, WxInput.adday, WxInput.col,
      epoch2num, epochtimeIdx, rainfallIdx, numvars]

lemma exOff_col : exOffInput.col 1 0 = 5 ∧ exOffInput.col 1 1 = 3 := by
  constructor <;>
    norm_num [WxInput.col, exOffInput, exRow, epochtimeIdx, rainfallIdx]

/-- C1 (counterexample): with dayOffsetFraction 0.2 and observations at
day-numbers 719173.1 and 719173.3 the aggregator produces one bucket with
recorded day-floor 719173 whose emitted maximum for field 1 is 5 (taken
over both observations), yet no observation whose adjusted day-floor
floor(dayNumber - offset) equals that bucket's day value carries the
value 5: the only such observation is row 1 (adjusted floor 719173) with
value 3, so the emitted maximum is not the true maximum over exactly the
observations whose adjusted day-floor falls in that bucket. -/
theorem C1_counterexample :
    dailydateArr exOffInput (1/5) = [719173] ∧
    (finalState exOffInput (1/5)).maxvars 1 0 = 5 ∧
    adjustedDayFloor exOffInput (1/5) 0 = 719172 ∧
    adjustedDayFloor exOffInput (1/5) 1 = 719173 ∧
    ¬ ∃ j, j < exOffInput.nobs ∧ adjustedDayFloor exOffInput (1/5) j = 719173 ∧
        exOffInput.col 1 j = 5 := by
  refine ⟨exOff_daily.1, exOff_daily.2.1, exOff_floors.1, exOff_floors.2, ?_⟩
  rintro ⟨j, hj, hfl, hval⟩
  have hj2 : j < 2 := hj
  interval_cases j
  · rw [exOff_floors.1] at hfl
    omega
  · rw [exOff_col.2] at hval
    norm_num at hval

/-- C5 (counterexample): on the same input with offset 0.2 the aggregator
produces exactly 1 bucket while the input stream contains 2 distinct
adjusted-day-floor values (719172 and 719173), so the bucket count does
not equal the number of distinct adjusted-day-floor values. -/
theorem C5_counterexample :
    numBuckets exOffInput (1/5) = 1 ∧
    (adjustedDayFloors exOffInput (1/5)).card = 2 := by
  refine ⟨exOff_daily.2.2, ?_⟩
  have hn : exOffInput.nobs = 2 := rfl
  rw [adjustedDayFloors, hn, Finset.range_succ, Finset.range_one,
    Finset.image_insert, Finset.image_singleton, exOff_floors.1, exOff_floors.2]
  rw [Finset.card_insert_of_not_mem (by norm_num), Finset.card_singleton]

/-- C4 (counterexample): on the concrete 3-observation input spanning
day-numbers 100.2 to 101.3 with offset 0, the aggregator produces 2
buckets, yet the per-field Max sequence (here MaxEpochtime) has the
pre-allocated length ceil(101.3 - 100.2) + 1 = 3, so not every daily-store
sequence has length equal to the bucket count. -/
theorem C4_counterexample :
    (maxSeq exInput 0 epochtimeIdx).length = 3 ∧
    (minSeq exInput 0 epochtimeIdx).length = 3 ∧
    numBuckets exInput 0 = 2 ∧
    (maxSeq exInput 0 epochtimeIdx).length ≠ numBuckets exInput 0 := by
  have h1 : (maxSeq exInput 0 epochtimeIdx).length = 3 := by
    rw [maxSeq, List.length_map, List.length_range, exInput_allocWidth]
  have h2 : (minSeq exInput 0 epochtimeIdx).length = 3 := by
    rw [minSeq, List.length_map, List.length_range, exInput_allocWidth]
  refine ⟨h1, h2, exInput_numBuckets, ?_⟩
  rw [h1, exInput_numBuckets]
  omega

lemma exNeg_cumsum : cumulativeRain exNegInput = [0, -1] := by
  norm_num [cumulativeRain, cumsum, cumsumAux, WxInput.colList, exNegInput, exRow,
    rainfallIdx, epochtimeIdx]

/-- C6 (counterexample): on a non-empty input whose Rainfall column is
[0, -1] the CumulativeRain column is [0, -1], which is not non-decreasing,
so the claim fails without a nonnegative-rainfall hypothesis. -/
theorem C6_counterexample :
    cumulativeRain exNegInput = [0, -1] ∧
    0 < exNegInput.nobs ∧
    ¬ List.Chain' (· ≤ ·) (cumulativeRain exNegInput) := by
  refine ⟨exNeg_cumsum, by norm_num [WxInput.nobs, exNegInput], ?_⟩
  rw [exNeg_cumsum]
  intro hc
  have := List.chain'_cons.mp hc
  norm_num at this

end ReadWeewx

namespace ReadWeewx

theorem C1_minmax_correct_witness :
    (∃ j, j < exInput.nobs ∧ bucketOf exInput 0 j = 0 ∧
        (finalState exInput 0).maxvars 15 0 = exInput.col 15 j) ∧
    exInput.col 15 0 ≤ (finalState exInput 0).maxvars 15 0 ∧
    (∃ j, j < exInput.nobs ∧ bucketOf exInput 0 j = 0 ∧
        (finalState exInput 0).minvars 15 0 = exInput.col 15 j) ∧
    (finalState exInput 0).minvars 15 0 ≤ exInput.col 15 0 :=
  C1_minmax_correct exInput 0 15 0 0
    (by rw [exInput_nobs]; omega) exInput_ascending (by norm_num) (by norm_num)
    (by norm_num [numvars]) (by rw [exInput_numBuckets]; omega)
    (by rw [exInput_nobs]; omega) exInput_bucketOf.1

theorem C3_rain_conservation_witness :
    (rain4dayArr exInput 0).sum = (exInput.colList rainfallIdx).sum :=
  C3_rain_conservation exInput 0 (by rw [exInput_nobs]; omega)

theorem C4_daily_lengths_witness :
    (dailydateArr exInput 0).length = numBuckets exInput 0 ∧
    (rain4dayArr exInput 0).length = numBuckets exInput 0 ∧
    (maxSeq exInput 0 0).length = allocWidth exInput ∧
    (minSeq exInput 0 0).length = allocWidth exInput ∧
    numBuckets exInput 0 ≤ allocWidth exInput :=
  C4_daily_lengths exInput 0 0
    (by rw [exInput_nobs]; omega) exInput_ascending (by norm_num) (by norm_num)

theorem C5_bucket_coverage_witness :
    List.Chain' (· < ·) (dailydateArr exInput 0) ∧
    bucketOf exInput 0 0 < numBuckets exInput 0 ∧
    (∃ j, j < exInput.nobs ∧ bucketOf exInput 0 j = 1) :=
  C5_bucket_coverage exInput 0 0 1
    (by rw [exInput_nobs]; omega) exInput_ascending (by norm_num) (by norm_num)
    (by rw [exInput_nobs]; omega) (by rw [exInput_numBuckets]; omega)

theorem C6_cumulative_rain_witness :
    List.Chain' (· ≤ ·) (cumulativeRain exInput) ∧
    (cumulativeRain exInput).getLast? = some ((exInput.colList rainfallIdx).sum) :=
  C6_cumulative_rain exInput (by rw [exInput_nobs]; omega)
    (by
      intro x hx
      rw [exInput_rainCol] at hx
      simp only [List.mem_cons, List.not_mem_nil, or_false] at hx
      rcases hx with h | h | h <;> rw [h] <;> norm_num)

theorem C7_boundary_strict_witness :
    (aggStep exC8Input (17/10) (initState exC8Input) 1).d =
      (initState exC8Input).d + 1 ∧
    (aggStep exC8Input (17/10) (initState exC8Input) 1).dailydate =
      (initState exC8Input).dailydate ++ [(initState exC8Input).currday] ∧
    (aggStep exC8Input (17/10) (initState exC8Input) 1).rain4day_arr =
      (initState exC8Input).rain4day_arr ++ [(initState exC8Input).rain4day] ∧
    (aggStep exC8Input (17/10) (initState exC8Input) 1).rain4day =
      exC8Input.col rainfallIdx 1 ∧
    (aggStep exC8Input (17/10) (initState exC8Input) 1).currday =
      ⌊exC8Input.adday 1⌋ ∧
    (aggStep exC8Input (17/10) (initState exC8Input) 1).maxvars 7
      ((initState exC8Input).d + 1) = exC8Input.col 7 1 ∧
    (aggStep exC8Input (17/10) (initState exC8Input) 1).minvars 7
      ((initState exC8Input).d + 1) = exC8Input.col 7 1 :=
  C7_boundary_strict exC8Input (17/10) (initState exC8Input) 1 7
    (by norm_num [numvars])
    (by
      have hc : (initState exC8Input).currday = 719173 := by
        norm_num [initState, WxInput.adday, WxInput.col, exC8Input, exRow,
          epoch2num, epochtimeIdx, rainfallIdx]
      rw [hc]
      norm_num [WxInput.adday, WxInput.col, exC8Input, exRow, epoch2num,
        epochtimeIdx, rainfallIdx])

theorem C9_raw_lengths_witness :
    (rawStoreFinal exInput 53).length = exInput.nobs ∧
    rawStoreFinal exInput 15 = exInput.colList 15 :=
  C9_raw_lengths exInput 53 15 (by rw [exInput_nobs]; omega) (by omega) (by omega)

theorem C10_writes_in_bounds_witness :
    ((aggRun exInput 0 3).d : ℤ) ≤
      ⌈exInput.adday (exInput.nobs - 1) - exInput.adday 0⌉ ∧
    (aggRun exInput 0 3).d < allocWidth exInput :=
  C10_writes_in_bounds exInput 0 3
    (by rw [exInput_nobs]; omega) exInput_ascending (by norm_num) (by norm_num)
    (by rw [exInput_nobs])

end ReadWeewx
